import Mathlib

/-!
Shallow embedding of the `playwright-mapper` core (src/index.js and the
CLI orchestration in bin/cli.js), together with theorems checking the
specification's claims about it.

Modelling conventions:
* JS strings are Lean `String`; JS arrays are Lean `List`.
* A JS `Set` of strings is modelled as a duplicate-free list built with
  `setAdd`, preserving insertion order (as JS `Set` iteration does).
* The mapping object `{ tag: [prefixes...] }` is modelled as an
  association list `List (String × List String)` in insertion order
  (`Object.entries` order); object keys are unique in JS.
* `computeGrepPattern`'s options object `{ addBaseline?: bool }` is
  modelled as `Option Bool`: `none` is an absent field (`{}`), and the
  destructuring default `const { addBaseline = true } = options` becomes
  `options.getD true`.
* External effects (the git diff command, `fs.existsSync`, `require` of
  the mappings module, spawning the test runner) are parameters of the
  functions that perform them, describing the outcome of the effect.
* JS string helpers used by the source (`split`, `join`, `trim`) are
  translated to structurally recursive Lean functions so that they
  evaluate by `decide`.
-/

namespace PlaywrightMapper

/-- Whitespace characters stripped by JS `String.prototype.trim`
(the ones relevant to `git diff` output). -/
def isJsWhitespace (c : Char) : Bool :=
  c = ' ' || c = '\n' || c = '\t' || c = '\r'

/-- Model of JS `String.prototype.trim`: drop whitespace from both ends. -/
def jsTrim (s : String) : String :=
  ⟨((s.data.dropWhile isJsWhitespace).reverse.dropWhile isJsWhitespace).reverse⟩

/-- Split a character list at every occurrence of `sep`
(char-level model of JS `String.prototype.split` with a
one-character separator). -/
def splitChar (sep : Char) : List Char → List (List Char)
  | [] => [[]]
  | c :: cs =>
    if c = sep then [] :: splitChar sep cs
    else
      match splitChar sep cs with
      | [] => [[c]]
      | g :: gs => (c :: g) :: gs

/-- Model of JS `String.prototype.split` with a one-character separator. -/
def jsSplit (sep : Char) (s : String) : List String :=
  (splitChar sep s.data).map (fun cs => ⟨cs⟩)

/-- Model of JS `Array.prototype.join`. -/
def jsJoin (sep : String) : List String → String
  | [] => ""
  | [a] => a
  | a :: rest => a ++ sep ++ jsJoin sep rest

/-- Join a list of character lists with a single separator character
(char-level counterpart of `jsJoin`). -/
def joinChar (sep : Char) : List (List Char) → List Char
  | [] => []
  | [x] => x
  | x :: xs => x ++ sep :: joinChar sep xs

/-- Model of JS `String.prototype.startsWith`: the argument's characters
are a prefix of the receiver's characters. -/
def jsStartsWith (s pre : String) : Bool :=
  pre.data.isPrefixOf s.data

/-- Insertion into a JS `Set` modelled on duplicate-free lists:
`tags.add(t)` appends `t` unless it is already present. -/
def setAdd (s : List String) (t : String) : List String :=
  if s.contains t then s else s ++ [t]

/-!
## `getChangedFiles` (src/index.js lines 11–47)

The git interaction is summarised by `diffResult : Option String`:
`none` means one of the `execSync` calls threw (the `catch` branch),
`some raw` means the diff command succeeded and printed `raw`.
The source then trims, returns `[]` on empty output, and otherwise
splits on newlines keeping only truthy (non-empty) entries.
-/

def getChangedFiles (diffResult : Option String) : List String :=
  match diffResult with
  | none => []
  | some raw =>
    let output := jsTrim raw
    if output = "" then []
    else (jsSplit '\n' output).filter (fun f => !(f == ""))

/-!
## `loadMappings` (src/index.js lines 54–66)

`fs.existsSync(resolvedPath)` is the parameter `fsExists`; the value
obtained by `require(resolvedPath)` is `loadedModule`, which may box the
table under a `default` key (`return mappings.default || mappings`).
-/

/-- A mapping table: tag → list of path prefixes, in insertion order. -/
abbrev MappingTable := List (String × List String)

/-- The shape of the value `require(resolvedPath)` returns: either the
mapping table directly, or boxed one level under a `default` key. -/
inductive LoadedModule where
  | plain (table : MappingTable)
  | withDefault (table : MappingTable)

/-- `mappings.default || mappings`. -/
def unwrapModule : LoadedModule → MappingTable
  | .plain t => t
  | .withDefault t => t

def loadMappings (fsExists : Bool) (resolvedPath : String)
    (loadedModule : LoadedModule) : Except String MappingTable :=
  if fsExists then .ok (unwrapModule loadedModule)
  else .error ("Mappings file not found: " ++ resolvedPath)

/-!
## `getMappedTags` (src/index.js lines 75–94)

`changedFiles.forEach(file => { for (const [tag, paths] of
Object.entries(mappings)) { if (paths.some(p => file.startsWith(p)))
tags.add(tag); } }); return Array.from(tags);`
-/

def getMappedTags (changedFiles : List String) (mappings : MappingTable) :
    List String :=
  changedFiles.foldl
    (fun tags file =>
      mappings.foldl
        (fun tags entry =>
          if entry.2.any (fun p => jsStartsWith file p) then setAdd tags entry.1
          else tags)
        tags)
    []

/-!
## `computeGrepPattern` (src/index.js lines 103–120)
-/

def computeGrepPattern (tags : List String) (options : Option Bool) : String :=
  let addBaseline := options.getD true
  let allTags := tags
  let allTags :=
    if addBaseline && !(allTags.contains "@baseline") then
      allTags ++ ["@baseline"]
    else allTags
  if allTags.length = 0 then "@baseline"
  else "(" ++ jsJoin "|" allTags ++ ")"

/-!
## `runPlaywright` (src/index.js lines 128–144)

The `execSync(args, { stdio: 'inherit' })` call is summarised by an
`exec : String → ExecOutcome` parameter mapping the built command line to
what the spawned process did: normal completion, or a throw carrying the
child's exit status (`error.status`, absent on spawn failure or signal
death). `error.status || 1` treats an absent status as 1.
-/

inductive ExecOutcome where
  | success
  | failure (status : Option Int)

def buildPlaywrightCommand (grepPattern : String)
    (additionalArgs : List String) : String :=
  jsJoin " "
    (["npx", "playwright", "test", "-g", "\"" ++ grepPattern ++ "\""] ++
      additionalArgs)

def runPlaywright (exec : String → ExecOutcome) (grepPattern : String)
    (additionalArgs : List String) : Int :=
  match exec (buildPlaywrightCommand grepPattern additionalArgs) with
  | .success => 0
  | .failure (some s) => if s = 0 then 1 else s
  | .failure none => 1

/-!
## CLI orchestration (bin/cli.js)

`runCommand` (lines 197–238) and `listCommand` (lines 164–192) are
modelled as pure functions of the configuration and an environment
record describing the outcomes of the external effects they perform.
Instead of actually spawning the runner, the models record which grep
pattern would be handed to `runPlaywright` and whether `loadMappings`
was invoked, which is what the claims about them observe.
-/

structure Config where
  baseBranch : String
  mappingsFile : String
  addBaseline : Bool
  verbose : Bool

structure CliEnv where
  /-- `process.env.MAPPER_DISABLE === '1'`. -/
  mapperDisable : Bool
  /-- Outcome of the git interaction inside `getChangedFiles`. -/
  diffResult : Option String
  /-- `fs.existsSync` on the resolved mappings path. -/
  mappingsExists : Bool
  /-- The module `require(resolvedPath)` would produce. -/
  mappingsModule : LoadedModule

/-- What `runCommand` did: the grep pattern passed to `runPlaywright`,
and whether `loadMappings` was invoked along the way. -/
structure RunTrace where
  grep : String
  consultedMappings : Bool
deriving DecidableEq

/-- `runCommand` (bin/cli.js lines 197–238), minus the `runPlaywright`
spawn itself: path resolution inside `loadMappings` is collapsed so the
resolved path is `config.mappingsFile`. -/
def runCommand (env : CliEnv) (config : Config) : RunTrace :=
  if env.mapperDisable then ⟨".*", false⟩
  else
    let changedFiles := getChangedFiles env.diffResult
    if changedFiles.length = 0 then ⟨"@baseline", false⟩
    else
      match loadMappings env.mappingsExists config.mappingsFile
          env.mappingsModule with
      | .error _ => ⟨".*", true⟩
      | .ok mappings =>
        let tags := getMappedTags changedFiles mappings
        let grepPattern := computeGrepPattern tags (some config.addBaseline)
        ⟨grepPattern, true⟩

/-- What `listCommand` did: the status `process.exit` is called with
(0 via `main` on success), and whether `runPlaywright` was invoked
(it never is on the `list` path). -/
structure ListTrace where
  exitCode : Nat
  invokedRunner : Bool
deriving DecidableEq

/-- `listCommand` (bin/cli.js lines 164–192): prints a dry run; on a
loader error it prints the message and calls `process.exit(1)`. -/
def listCommand (env : CliEnv) (config : Config) : ListTrace :=
  let changedFiles := getChangedFiles env.diffResult
  if changedFiles.length = 0 then ⟨0, false⟩
  else
    match loadMappings env.mappingsExists config.mappingsFile
        env.mappingsModule with
    | .ok _ => ⟨0, false⟩
    | .error _ => ⟨1, false⟩

/-!
## Heap-level model of `computeGrepPattern`

To state that `computeGrepPattern` never mutates the array its `tags`
argument references, JS arrays are modelled as references into a store
of arrays. `const allTags = [...tags]` allocates a fresh array holding a
copy, and `allTags.push('@baseline')` mutates the store at the fresh
reference only.
-/

/-- A store of JS string arrays; a reference is an index into it. -/
abbrev Store := List (List String)

/-- Dereference: `σ.getD r []` reads the array behind `r`. -/
def heapGet (σ : Store) (r : Nat) : List String :=
  σ.getD r []

/-- `computeGrepPattern` with the two arrays it touches held in an
explicit store; returns the final store and the computed pattern. -/
def computeGrepPatternHeap (σ : Store) (tags : Nat) (options : Option Bool) :
    Store × String :=
  let addBaseline := options.getD true
  let allTags := σ.length
  let σ := σ ++ [heapGet σ tags]
  let σ :=
    if addBaseline && !((heapGet σ allTags).contains "@baseline") then
      σ.set allTags (heapGet σ allTags ++ ["@baseline"])
    else σ
  if (heapGet σ allTags).length = 0 then (σ, "@baseline")
  else (σ, "(" ++ jsJoin "|" (heapGet σ allTags) ++ ")")

/-!
## Extracting the tag set back out of a composed filter expression

Needed to state the re-composition (idempotence) property: a composed
expression is either the bare baseline fallback — produced only from the
empty tag set — or a parenthesized `|`-alternation, which is split back
into its alternatives.
-/

def extractTags (e : String) : List String :=
  if e = "@baseline" then []
  else if e.data.head? = some '(' ∧ e.data.getLast? = some ')' then
    (splitChar '|' e.data.tail.dropLast).map (fun cs => ⟨cs⟩)
  else [e]

/-!
## Lemmas about `setAdd` and the folds inside `getMappedTags`
-/

theorem mem_setAdd (s : List String) (t a : String) :
    a ∈ setAdd s t ↔ a ∈ s ∨ a = t := by
  unfold setAdd
  split
  · next hc =>
    simp only [List.elem_iff] at hc
    constructor
    · exact fun h => Or.inl h
    · rintro (h | rfl)
      · exact h
      · exact hc
  · simp

theorem nodup_setAdd (s : List String) (t : String) (h : s.Nodup) :
    (setAdd s t).Nodup := by
  unfold setAdd
  split
  · exact h
  · next hc =>
    simp only [List.elem_iff] at hc
    simp [List.nodup_append, h, hc]

theorem mem_fileFold (file : String) (mappings : MappingTable)
    (tags : List String) (T : String) :
    T ∈ mappings.foldl
        (fun tags entry =>
          if entry.2.any (fun p => jsStartsWith file p) then setAdd tags entry.1
          else tags)
        tags ↔
      T ∈ tags ∨
        ∃ e ∈ mappings, e.1 = T ∧
          e.2.any (fun p => jsStartsWith file p) = true := by
  induction mappings generalizing tags with
  | nil => simp
  | cons e es ih =>
    simp only [List.foldl_cons]
    rw [ih]
    by_cases hc : e.2.any (fun p => jsStartsWith file p) = true
    · simp only [hc, if_true, mem_setAdd, List.mem_cons]
      constructor
      · rintro (⟨h | rfl⟩ | ⟨e', he', hT, ha⟩)
        · exact Or.inl h
        · exact Or.inr ⟨e, Or.inl rfl, rfl, hc⟩
        · exact Or.inr ⟨e', Or.inr he', hT, ha⟩
      · rintro (h | ⟨e', (rfl | he'), hT, ha⟩)
        · exact Or.inl (Or.inl h)
        · exact Or.inl (Or.inr hT.symm)
        · exact Or.inr ⟨e', he', hT, ha⟩
    · simp only [hc, if_false, List.mem_cons]
      constructor
      · rintro (h | ⟨e', he', hT, ha⟩)
        · exact Or.inl h
        · exact Or.inr ⟨e', Or.inr he', hT, ha⟩
      · rintro (h | ⟨e', (rfl | he'), hT, ha⟩)
        · exact Or.inl h
        · exact absurd ha hc
        · exact Or.inr ⟨e', he', hT, ha⟩

theorem nodup_fileFold (file : String) (mappings : MappingTable)
    (tags : List String) (h : tags.Nodup) :
    (mappings.foldl
        (fun tags entry =>
          if entry.2.any (fun p => jsStartsWith file p) then setAdd tags entry.1
          else tags)
        tags).Nodup := by
  induction mappings generalizing tags with
  | nil => simpa
  | cons e es ih =>
    simp only [List.foldl_cons]
    by_cases hc : e.2.any (fun p => jsStartsWith file p) = true
    · simp only [hc, if_true]
      exact ih _ (nodup_setAdd _ _ h)
    · simp only [hc, if_false]
      exact ih _ h

theorem mem_filesFold (files : List String) (mappings : MappingTable)
    (tags : List String) (T : String) :
    T ∈ files.foldl
        (fun tags file =>
          mappings.foldl
            (fun tags entry =>
              if entry.2.any (fun p => jsStartsWith file p) then
                setAdd tags entry.1
              else tags)
            tags)
        tags ↔
      T ∈ tags ∨
        ∃ f ∈ files, ∃ e ∈ mappings, e.1 = T ∧
          e.2.any (fun p => jsStartsWith f p) = true := by
  induction files generalizing tags with
  | nil => simp
  | cons f fs ih =>
    simp only [List.foldl_cons]
    rw [ih, mem_fileFold]
    constructor
    · rintro ((h | ⟨e, he, hT, ha⟩) | ⟨f', hf', rest⟩)
      · exact Or.inl h
      · exact Or.inr ⟨f, List.mem_cons_self f fs, e, he, hT, ha⟩
      · exact Or.inr ⟨f', List.mem_cons_of_mem f hf', rest⟩
    · rintro (h | ⟨f', hf', rest⟩)
      · exact Or.inl (Or.inl h)
      · rcases List.mem_cons.mp hf' with rfl | hf'
        · exact Or.inl (Or.inr rest)
        · exact Or.inr ⟨f', hf', rest⟩

theorem nodup_filesFold (files : List String) (mappings : MappingTable)
    (tags : List String) (h : tags.Nodup) :
    (files.foldl
        (fun tags file =>
          mappings.foldl
            (fun tags entry =>
              if entry.2.any (fun p => jsStartsWith file p) then
                setAdd tags entry.1
              else tags)
            tags)
        tags).Nodup := by
  induction files generalizing tags with
  | nil => simpa
  | cons f fs ih =>
    simp only [List.foldl_cons]
    exact ih _ (nodup_fileFold _ _ _ h)

/-- C1: for every mapping table and every set of changed files, the tag
set returned by `getMappedTags` contains a tag `T` iff at least one
changed file string-starts-with one of `T`'s configured prefixes, and
each tag appears at most once in the result. -/
theorem getMappedTags_spec (changedFiles : List String)
    (mappings : MappingTable) :
    (getMappedTags changedFiles mappings).Nodup ∧
      ∀ T, T ∈ getMappedTags changedFiles mappings ↔
        ∃ ps, (T, ps) ∈ mappings ∧
          ∃ f ∈ changedFiles, ∃ p ∈ ps, p.data <+: f.data := by
  constructor
  · exact nodup_filesFold changedFiles mappings [] List.nodup_nil
  · intro T
    unfold getMappedTags
    rw [mem_filesFold]
    simp only [List.not_mem_nil, false_or]
    constructor
    · rintro ⟨f, hf, ⟨eT, eps⟩, he, hT, ha⟩
      subst hT
      obtain ⟨p, hp, hpre⟩ := List.any_eq_true.mp ha
      exact ⟨eps, he, f, hf, p, hp,
        List.isPrefixOf_iff_prefix.mp hpre⟩
    · rintro ⟨ps, hps, f, hf, p, hp, hpre⟩
      refine ⟨f, hf, (T, ps), hps, rfl, ?_⟩
      exact List.any_eq_true.mpr
        ⟨p, hp, List.isPrefixOf_iff_prefix.mpr hpre⟩

/-!
## Lemmas about `computeGrepPattern`
-/

/-- The effective tag list `computeGrepPattern` builds before joining:
the input tags, with the baseline tag appended when `addBaseline` is on
and it is not already present. -/
def allTagsOf (tags : List String) (options : Option Bool) : List String :=
  if options.getD true && !(tags.contains "@baseline") then
    tags ++ ["@baseline"]
  else tags

theorem computeGrepPattern_eq (tags : List String) (options : Option Bool) :
    computeGrepPattern tags options =
      if allTagsOf tags options = [] then "@baseline"
      else "(" ++ jsJoin "|" (allTagsOf tags options) ++ ")" := by
  simp [computeGrepPattern, allTagsOf, List.length_eq_zero]

theorem allTagsOf_ne_nil (tags : List String) (options : Option Bool)
    (h : tags ≠ [] ∨ options.getD true = true) :
    allTagsOf tags options ≠ [] := by
  unfold allTagsOf
  rcases h with h | h
  · split <;> simp [h]
  · simp only [h, Bool.true_and]
    split
    · simp
    · next hc =>
      simp only [Bool.not_eq_true', Bool.not_eq_false] at hc
      intro hnil
      rw [hnil] at hc
      simp at hc

theorem baseline_mem_allTagsOf (tags : List String) (options : Option Bool)
    (h : options.getD true = true) :
    "@baseline" ∈ allTagsOf tags options := by
  unfold allTagsOf
  simp only [h, Bool.true_and]
  split
  · simp
  · next hc =>
    simp only [Bool.not_eq_true', Bool.not_eq_false] at hc
    exact List.elem_iff.mp hc

theorem allTagsOf_idem (tags : List String) (options : Option Bool) :
    allTagsOf (allTagsOf tags options) options = allTagsOf tags options := by
  by_cases h : options.getD true = true
  · have hmem := baseline_mem_allTagsOf tags options h
    unfold allTagsOf
    have hc : (allTagsOf tags options).contains "@baseline" = true :=
      List.elem_iff.mpr hmem
    simp [allTagsOf] at hc
    simp [hc]
  · simp only [Bool.not_eq_true] at h
    unfold allTagsOf
    simp [h]

/-- C2 counterexample: on the empty tag list with `addBaseline` true,
`computeGrepPattern` returns the wrapped group `"(@baseline)"`, not the
bare string `"@baseline"` the claim demands. -/
theorem computeGrepPattern_empty_true_counterexample :
    computeGrepPattern [] (some true) = "(@baseline)" ∧
      (computeGrepPattern [] (some true) == "@baseline") = false := by
  decide

/-- C2 (amended): on the empty tag list with `addBaseline` true (or left
to its default), `computeGrepPattern` returns `"(@baseline)"`: the
baseline tag as the sole alternative of the parenthesized OR group. -/
theorem computeGrepPattern_empty_true (options : Option Bool)
    (h : options.getD true = true) :
    computeGrepPattern [] options = "(@baseline)" := by
  cases options with
  | none => rfl
  | some b =>
    simp only [Option.getD_some] at h
    subst h
    rfl

/-- Witness for `computeGrepPattern_empty_true` at `{addBaseline: true}`. -/
theorem computeGrepPattern_empty_true_witness :
    computeGrepPattern [] (some true) = "(@baseline)" :=
  computeGrepPattern_empty_true (some true) rfl

/-- C3: for every tag list and options value the computed pattern is a
non-empty string, and in the case where the effective tag set is empty
(`addBaseline` false and no tags) it is the bare baseline tag. -/
theorem computeGrepPattern_never_empty (tags : List String)
    (options : Option Bool) :
    0 < (computeGrepPattern tags options).length ∧
      (tags = [] ∧ options.getD true = false →
        computeGrepPattern tags options = "@baseline") := by
  constructor
  · rw [computeGrepPattern_eq]
    split
    · decide
    · rw [String.length_append, String.length_append]
      have h1 : ("(" : String).length = 1 := rfl
      omega
  · rintro ⟨rfl, hb⟩
    cases options with
    | none => simp at hb
    | some b =>
      simp only [Option.getD_some] at hb
      subst hb
      rfl

/-- Witness for `computeGrepPattern_never_empty` at `[]`,
`{addBaseline: false}`: the pattern is non-empty and is exactly the
bare baseline tag. -/
theorem computeGrepPattern_never_empty_witness :
    0 < (computeGrepPattern [] (some false)).length ∧
      computeGrepPattern [] (some false) = "@baseline" :=
  ⟨(computeGrepPattern_never_empty [] (some false)).1,
    (computeGrepPattern_never_empty [] (some false)).2 ⟨rfl, rfl⟩⟩

/-- C4: whenever the effective tag set is non-empty, the pattern is the
parenthesized `|`-alternation of the effective tag list, which is the
input list in order, with `"@baseline"` appended last exactly when
`addBaseline` is true and it is not already present — never duplicated:
if it is already present the list is left alone, and it never occurs
more than once unless the input already duplicated it. -/
theorem computeGrepPattern_alternation (tags : List String)
    (options : Option Bool) (h : tags ≠ [] ∨ options.getD true = true) :
    computeGrepPattern tags options =
        "(" ++ jsJoin "|" (allTagsOf tags options) ++ ")" ∧
      (options.getD true = false → allTagsOf tags options = tags) ∧
      (options.getD true = true → tags.contains "@baseline" = false →
        allTagsOf tags options = tags ++ ["@baseline"]) ∧
      (tags.contains "@baseline" = true → allTagsOf tags options = tags) ∧
      (tags.contains "@baseline" = false →
        (allTagsOf tags options).count "@baseline" ≤ 1) := by
  refine ⟨?_, ?_, ?_, ?_, ?_⟩
  · rw [computeGrepPattern_eq]
    simp [allTagsOf_ne_nil tags options h]
  · intro hb
    simp [allTagsOf, hb]
  · intro hb hc
    have hc' : "@baseline" ∉ tags := by simpa using hc
    simp [allTagsOf, hb, hc']
  · intro hc
    have hc' : "@baseline" ∈ tags := by simpa using hc
    simp [allTagsOf, hc']
  · intro hc
    have hc' : "@baseline" ∉ tags := by simpa using hc
    have hz : tags.count "@baseline" = 0 := List.count_eq_zero.mpr hc'
    unfold allTagsOf
    split
    · simp [List.count_append, hz]
    · simp [hz]

/-- Witness for `computeGrepPattern_alternation` at `["@x"]` with the
default options. -/
theorem computeGrepPattern_alternation_witness :
    computeGrepPattern ["@x"] none =
        "(" ++ jsJoin "|" (allTagsOf ["@x"] none) ++ ")" ∧
      allTagsOf ["@x"] none = ["@x"] ++ ["@baseline"] ∧
      (allTagsOf ["@x"] none).count "@baseline" ≤ 1 :=
  have h := computeGrepPattern_alternation ["@x"] none (Or.inl (by decide))
  ⟨h.1, h.2.2.1 rfl (by decide), h.2.2.2.2 (by decide)⟩

/-- C6: `getChangedFiles` never propagates an error — a failed diff
command yields the empty list — and successful empty output also yields
the empty list; no entry of the result is ever the empty string. -/
theorem getChangedFiles_fail_open :
    getChangedFiles none = [] ∧ getChangedFiles (some "") = [] ∧
      ∀ raw, ((getChangedFiles (some raw)).all fun f => !(f == "")) = true := by
  refine ⟨rfl, by decide, ?_⟩
  intro raw
  simp only [getChangedFiles]
  split
  · rfl
  · refine List.all_eq_true.mpr ?_
    intro f hf
    exact (List.mem_filter.mp hf).2

/-- C7: when the resolved mappings path does not exist, `loadMappings`
returns the not-found error; `runCommand` catches it and hands the
runner the match-all filter `".*"`, while `listCommand` exits with
status 1 (and, as always, without invoking the runner). -/
theorem missing_mappings_behavior (env : CliEnv) (config : Config)
    (hfs : env.mappingsExists = false)
    (hdis : env.mapperDisable = false)
    (hch : getChangedFiles env.diffResult ≠ []) :
    loadMappings env.mappingsExists config.mappingsFile env.mappingsModule =
        .error ("Mappings file not found: " ++ config.mappingsFile) ∧
      (runCommand env config).grep = ".*" ∧
      (listCommand env config).exitCode = 1 ∧
      (listCommand env config).invokedRunner = false := by
  have hlen : ¬(getChangedFiles env.diffResult).length = 0 := by
    simpa [List.length_eq_zero] using hch
  have hload : loadMappings env.mappingsExists config.mappingsFile
      env.mappingsModule =
      .error ("Mappings file not found: " ++ config.mappingsFile) := by
    simp [loadMappings, hfs]
  refine ⟨hload, ?_, ?_, ?_⟩
  · simp [runCommand, hdis, hlen, hload]
  · simp [listCommand, hlen, hload]
  · simp [listCommand, hlen, hload]

/-- Witness for `missing_mappings_behavior`: missing mappings file, one
changed file. -/
theorem missing_mappings_behavior_witness :
    loadMappings false "test-mappings.js" (.plain []) =
        .error ("Mappings file not found: " ++ "test-mappings.js") ∧
      (runCommand ⟨false, some "a.txt", false, .plain []⟩
        ⟨"main", "test-mappings.js", true, false⟩).grep = ".*" ∧
      (listCommand ⟨false, some "a.txt", false, .plain []⟩
        ⟨"main", "test-mappings.js", true, false⟩).exitCode = 1 ∧
      (listCommand ⟨false, some "a.txt", false, .plain []⟩
        ⟨"main", "test-mappings.js", true, false⟩).invokedRunner = false :=
  missing_mappings_behavior ⟨false, some "a.txt", false, .plain []⟩
    ⟨"main", "test-mappings.js", true, false⟩ rfl rfl (by decide)

/-- C8: `runPlaywright` translates every outcome of the spawned process
into an integer status: 0 on success, the child's reported (necessarily
non-zero) exit status when the throw carries one, and 1 when it carries
none. -/
theorem runPlaywright_status (exec : String → ExecOutcome)
    (grepPattern : String) (additionalArgs : List String) :
    (exec (buildPlaywrightCommand grepPattern additionalArgs) = .success →
        runPlaywright exec grepPattern additionalArgs = 0) ∧
      (∀ s : Int, s ≠ 0 →
        exec (buildPlaywrightCommand grepPattern additionalArgs) =
          .failure (some s) →
        runPlaywright exec grepPattern additionalArgs = s) ∧
      (exec (buildPlaywrightCommand grepPattern additionalArgs) =
          .failure none →
        runPlaywright exec grepPattern additionalArgs = 1) := by
  refine ⟨?_, ?_, ?_⟩
  · intro h
    simp [runPlaywright, h]
  · intro s hs h
    simp [runPlaywright, h, hs]
  · intro h
    simp [runPlaywright, h]

/-- Witness for `runPlaywright_status` at the three outcomes. -/
theorem runPlaywright_status_witness :
    runPlaywright (fun _ => .success) ".*" [] = 0 ∧
      runPlaywright (fun _ => .failure (some 7)) ".*" [] = 7 ∧
      runPlaywright (fun _ => .failure none) ".*" [] = 1 :=
  ⟨(runPlaywright_status (fun _ => .success) ".*" []).1 rfl,
    (runPlaywright_status (fun _ => .failure (some 7)) ".*" []).2.1 7
      (by decide) rfl,
    (runPlaywright_status (fun _ => .failure none) ".*" []).2.2 rfl⟩

/-- C9: when the detected changed-file set is empty (and the bypass
variable is not set), `runCommand` hands the runner the baseline-only
filter and never invokes `loadMappings`, whatever the configuration —
including `addBaseline` false. -/
theorem empty_changes_baseline_only (env : CliEnv) (config : Config)
    (hdis : env.mapperDisable = false)
    (hch : getChangedFiles env.diffResult = []) :
    (runCommand env config).grep = "@baseline" ∧
      (runCommand env config).consultedMappings = false := by
  constructor <;> simp [runCommand, hdis, hch]

/-- Witness for `empty_changes_baseline_only`: failed diff, a present
mappings file, and `addBaseline` false. -/
theorem empty_changes_baseline_only_witness :
    (runCommand ⟨false, none, true, .plain [("@auth", ["src/auth/"])]⟩
        ⟨"main", "test-mappings.js", false, false⟩).grep = "@baseline" ∧
      (runCommand ⟨false, none, true, .plain [("@auth", ["src/auth/"])]⟩
        ⟨"main", "test-mappings.js", false, false⟩).consultedMappings =
        false :=
  empty_changes_baseline_only ⟨false, none, true,
    .plain [("@auth", ["src/auth/"])]⟩
    ⟨"main", "test-mappings.js", false, false⟩ rfl rfl

/-!
## Store lemmas and the frame property of `computeGrepPatternHeap`
-/

theorem heapGet_append_lt (σ : Store) (x : List String) (r : Nat)
    (h : r < σ.length) : heapGet (σ ++ [x]) r = heapGet σ r := by
  simp [heapGet, List.getD_eq_getElem?_getD, List.getElem?_append, h]

theorem heapGet_append_len (σ : Store) (x : List String) :
    heapGet (σ ++ [x]) σ.length = x := by
  simp [heapGet, List.getD_eq_getElem?_getD, List.getElem?_concat_length]

theorem heapGet_set_ne (σ : Store) (i r : Nat) (x : List String)
    (h : r ≠ i) : heapGet (σ.set i x) r = heapGet σ r := by
  simp [heapGet, List.getD_eq_getElem?_getD, List.getElem?_set_ne (Ne.symm h)]

theorem heapGet_set_self (σ : Store) (i : Nat) (x : List String)
    (h : i < σ.length) : heapGet (σ.set i x) i = x := by
  simp [heapGet, List.getD_eq_getElem?_getD, List.getElem?_set_self, h]

/-- C10: `computeGrepPattern` does not mutate the array its `tags`
argument references: in the store model, the array behind any valid
`tags` reference is unchanged after the call (the baseline push hits
only the freshly allocated copy), and the computed pattern agrees with
the pure `computeGrepPattern` on the dereferenced tag list. -/
theorem computeGrepPatternHeap_frame (σ : Store) (tags : Nat)
    (options : Option Bool) (h : tags < σ.length) :
    heapGet (computeGrepPatternHeap σ tags options).1 tags = heapGet σ tags ∧
      (computeGrepPatternHeap σ tags options).2 =
        computeGrepPattern (heapGet σ tags) options := by
  have hne : tags ≠ σ.length := Nat.ne_of_lt h
  have hlen : σ.length < (σ ++ [heapGet σ tags]).length := by
    simp
  unfold computeGrepPatternHeap
  simp only [heapGet_append_len]
  rw [computeGrepPattern_eq]
  by_cases hc :
      (options.getD true && !((heapGet σ tags).contains "@baseline")) = true
  · have hall : allTagsOf (heapGet σ tags) options =
        heapGet σ tags ++ ["@baseline"] := by
      unfold allTagsOf
      rw [if_pos hc]
    rw [if_pos hc]
    simp only [heapGet_set_self _ _ _ hlen]
    rw [if_neg (by simp :
      ¬((heapGet σ tags ++ ["@baseline"]).length = 0))]
    refine ⟨?_, ?_⟩
    · simp only [heapGet_set_ne _ _ _ _ hne, heapGet_append_lt _ _ _ h]
    · rw [hall,
        if_neg (by simp : ¬(heapGet σ tags ++ ["@baseline"] = []))]
  · have hall : allTagsOf (heapGet σ tags) options = heapGet σ tags := by
      unfold allTagsOf
      rw [if_neg hc]
    rw [if_neg hc]
    simp only [heapGet_append_len]
    rw [hall]
    by_cases hz : (heapGet σ tags).length = 0
    · rw [if_pos hz, if_pos (List.length_eq_zero.mp hz)]
      exact ⟨heapGet_append_lt _ _ _ h, rfl⟩
    · rw [if_neg hz,
        if_neg (fun hn => hz (by rw [hn]; rfl))]
      exact ⟨heapGet_append_lt _ _ _ h, rfl⟩

/-- Witness for `computeGrepPatternHeap_frame`: a one-array store. -/
theorem computeGrepPatternHeap_frame_witness :
    heapGet (computeGrepPatternHeap [["@a"]] 0 none).1 0 =
        heapGet [["@a"]] 0 ∧
      (computeGrepPatternHeap [["@a"]] 0 none).2 =
        computeGrepPattern (heapGet [["@a"]] 0) none :=
  computeGrepPatternHeap_frame [["@a"]] 0 none (by decide)

/-!
## Round trip between joining on `|` and splitting on `|`

These support the re-composition property: splitting the alternation
back into its alternatives recovers the joined list, provided no
alternative contains the separator.
-/

theorem splitChar_no_sep (sep : Char) (x : List Char) (h : sep ∉ x) :
    splitChar sep x = [x] := by
  induction x with
  | nil => rfl
  | cons c cs ih =>
    have hc : ¬(c = sep) := by
      intro hEq
      exact h (by rw [hEq]; exact List.mem_cons_self _ _)
    have hcs : sep ∉ cs := fun hm => h (List.mem_cons_of_mem _ hm)
    simp only [splitChar]
    rw [if_neg hc, ih hcs]

theorem splitChar_append_sep (sep : Char) (x t : List Char) (h : sep ∉ x) :
    splitChar sep (x ++ sep :: t) = x :: splitChar sep t := by
  induction x with
  | nil =>
    simp [splitChar]
  | cons c cs ih =>
    have hc : ¬(c = sep) := by
      intro hEq
      exact h (by rw [hEq]; exact List.mem_cons_self _ _)
    have hcs : sep ∉ cs := fun hm => h (List.mem_cons_of_mem _ hm)
    simp only [List.cons_append, splitChar, List.append_eq]
    rw [if_neg hc, ih hcs]

theorem splitChar_joinChar (sep : Char) (L : List (List Char)) (hL : L ≠ [])
    (hp : ∀ x ∈ L, sep ∉ x) :
    splitChar sep (joinChar sep L) = L := by
  induction L with
  | nil => exact absurd rfl hL
  | cons x rest ih =>
    cases rest with
    | nil =>
      simp only [joinChar]
      exact splitChar_no_sep sep x (hp x (List.mem_cons_self _ _))
    | cons y rest' =>
      simp only [joinChar]
      rw [splitChar_append_sep sep x _ (hp x (List.mem_cons_self _ _))]
      rw [ih (by simp) (fun z hz => hp z (List.mem_cons_of_mem _ hz))]

theorem data_jsJoin (l : List String) :
    (jsJoin "|" l).data = joinChar '|' (l.map String.data) := by
  induction l with
  | nil => rfl
  | cons a rest ih =>
    cases rest with
    | nil => rfl
    | cons b rest' =>
      simp only [jsJoin, joinChar, List.map_cons]
      rw [String.data_append, String.data_append, ih]
      have hbar : ("|" : String).data = ['|'] := rfl
      rw [hbar]
      simp [List.append_assoc]

theorem extractTags_compose (l : List String) (hl : l ≠ [])
    (hp : ∀ x ∈ l, '|' ∉ x.data) :
    extractTags ("(" ++ jsJoin "|" l ++ ")") = l := by
  have hdata : ("(" ++ jsJoin "|" l ++ ")").data =
      '(' :: ((jsJoin "|" l).data ++ [')']) := by
    simp [String.data_append]
  have hne : ("(" ++ jsJoin "|" l ++ ")") ≠ "@baseline" := by
    intro hEq
    have h3 := congrArg (fun s : String => s.data.head?) hEq
    simp only [hdata, List.head?_cons] at h3
    exact absurd h3 (by decide)
  unfold extractTags
  rw [if_neg hne, hdata]
  rw [if_pos ?hcond]
  case hcond =>
    refine ⟨by simp, ?_⟩
    rw [show ('(' :: ((jsJoin "|" l).data ++ [')'])) =
      ('(' :: (jsJoin "|" l).data) ++ [')'] from rfl]
    exact List.getLast?_concat _
  rw [List.tail_cons, List.dropLast_concat, data_jsJoin]
  rw [splitChar_joinChar '|' (l.map String.data) (by simpa using hl)
    (by
      intro x hx
      obtain ⟨t, ht, rfl⟩ := List.mem_map.mp hx
      exact hp t ht)]
  rw [List.map_map]
  have hid : ((fun cs => (⟨cs⟩ : String)) ∘ String.data) = id :=
    funext fun t => rfl
  rw [hid, List.map_id]

theorem recompose_allTagsOf (tags : List String) (options : Option Bool) :
    computeGrepPattern (allTagsOf tags options) options =
      computeGrepPattern tags options := by
  rw [computeGrepPattern_eq, computeGrepPattern_eq, allTagsOf_idem]

/-- C5: `computeGrepPattern` is idempotent under re-application: for
well-formed tags (none containing the `|` separator), extracting the tag
set back out of the composed expression and composing it again with the
same options yields the same expression — exactly, the baseline tag's
presence in the extracted set included. -/
theorem computeGrepPattern_idempotent (tags : List String)
    (options : Option Bool) (h : ∀ t ∈ tags, '|' ∉ t.data) :
    computeGrepPattern (extractTags (computeGrepPattern tags options))
        options =
      computeGrepPattern tags options := by
  by_cases hnil : allTagsOf tags options = []
  · have hb : options.getD true = false := by
      cases hgd : options.getD true
      · rfl
      · have hmem := baseline_mem_allTagsOf tags options hgd
        rw [hnil] at hmem
        exact absurd hmem (List.not_mem_nil _)
    have he : computeGrepPattern tags options = "@baseline" := by
      rw [computeGrepPattern_eq, if_pos hnil]
    rw [he, show extractTags "@baseline" = [] from rfl]
    rw [computeGrepPattern_eq,
      if_pos (show allTagsOf [] options = [] by simp [allTagsOf, hb])]
  · have he : computeGrepPattern tags options =
        "(" ++ jsJoin "|" (allTagsOf tags options) ++ ")" := by
      rw [computeGrepPattern_eq, if_neg hnil]
    have hnopipe : ∀ x ∈ allTagsOf tags options, '|' ∉ x.data := by
      intro x hx
      unfold allTagsOf at hx
      split at hx
      · rcases List.mem_append.mp hx with hx | hx
        · exact h x hx
        · rw [List.mem_singleton.mp hx]
          decide
      · exact h x hx
    rw [he, extractTags_compose (allTagsOf tags options) hnil hnopipe,
      recompose_allTagsOf]
    exact he

/-- Witness for `computeGrepPattern_idempotent` at `["@x"]` with the
default options. -/
theorem computeGrepPattern_idempotent_witness :
    computeGrepPattern (extractTags (computeGrepPattern ["@x"] none)) none =
      computeGrepPattern ["@x"] none :=
  computeGrepPattern_idempotent ["@x"] none (by decide)

end PlaywrightMapper
